import Mathlib

/-!
Shallow embedding of the busFact fiscal-date inference engine.

The Python sources embedded here are:
* `business_factor/pipeline/steps.py` (quarter computation, FYE choice,
  effective period month, the step-3 FYE resolution chain),
* `src/busfactor/parsing/html.py` (text normalizer, date/month candidate
  scanner, the FYE probe fallback chain, near-set exclusion, scorers),
* `src/parsing/patterns.py` (DEI inline-tag month parsing),
* `business_factor/utils/text.py` (page-token stripping, NBSP replacement).

Pure Python functions become Lean functions.  Calls into external libraries
(the `re` regex engine iterating matches over a text, `pandas.to_datetime`)
are embedded as follows: where a claim is about the selection/filter logic,
the list of regex matches over the document is taken as input, in the order
the engine yields them; where a claim needs concrete evaluation, the small
regexes (`-{1,2}(\d{2})-\d{2}`, the DEI month forms, the month-word table)
are implemented character by character, faithful to the pattern.
Floating-point candidate scores only ever take values that are sums of the
integer constants 6, 3, 2, 1, 4 and -1, so scores are embedded as `Int`.
-/

namespace BusFact

/-- Python truthiness of an optional int (`if not pm: ...` treats both
`None` and `0` as falsy). -/
def truthy (o : Option Nat) : Bool := o.getD 0 != 0

/-- From `src/busfactor/parsing/html.py`, `_wrap_month`:
`((int(m) - 1) % 12) + 1` (Python `%` on a positive modulus is Euclidean
remainder, matching `Int.emod`). -/
def wrap_month (m : Int) : Nat := (((m - 1) % 12) + 1).toNat

/-- From `src/busfactor/parsing/html.py`, `_near_months_set`:
empty when the period month is missing (or falsy), otherwise the circular
three-month window `{pm-1, pm, pm+1}`. -/
def near_months_set (pm : Option Nat) : Finset Nat :=
  match pm with
  | none => ∅
  | some p =>
    if p = 0 then ∅
    else {wrap_month ((p : Int) - 1), wrap_month (p : Int), wrap_month ((p : Int) + 1)}

/-- From `src/busfactor/parsing/html.py`, `month_in_near_set`:
`False` when the period month is missing, else membership in the near set. -/
def month_in_near_set (candidate_m : Nat) (period_m : Option Nat) : Bool :=
  if ¬ truthy period_m then false
  else decide (candidate_m ∈ near_months_set period_m)

/-- From `src/busfactor/parsing/html.py`, `_month_distance`:
circular distance `(m - pm) % 12` in `0..11`. -/
def month_distance (pm m : Nat) : Int := ((m : Int) - (pm : Int)) % 12

/-- Calendar date, as produced by `pandas.to_datetime(...).date()`. -/
structure SDate where
  year : Int
  month : Nat
  day : Nat
deriving DecidableEq, Repr

/-- Gregorian leap-year rule (semantics of the `pandas` calendar). -/
def is_leap (y : Int) : Bool := y % 4 == 0 && (y % 100 != 0 || y % 400 == 0)

/-- Days in a calendar month (semantics of the `pandas` calendar). -/
def days_in_month (y : Int) (m : Nat) : Nat :=
  if m = 2 then (if is_leap y then 29 else 28)
  else if m = 4 ∨ m = 6 ∨ m = 9 ∨ m = 11 then 30
  else 31

/-- One day earlier (semantics of `pandas.Timedelta(days=1)` subtraction). -/
def pred_day (d : SDate) : SDate :=
  if 2 ≤ d.day then ⟨d.year, d.month, d.day - 1⟩
  else if d.month = 1 then ⟨d.year - 1, 12, 31⟩
  else ⟨d.year, d.month - 1, days_in_month d.year (d.month - 1)⟩

/-- `n` days earlier (semantics of `period_dt - pd.Timedelta(days=n)`). -/
def sub_days : SDate → Nat → SDate
  | d, 0 => d
  | d, n + 1 => sub_days (pred_day d) n

/-- From `business_factor/pipeline/steps.py`, `effective_period_month`:
`None` when the date is missing; when the day of month is at most the
cutoff, the month of the date shifted back by `cutoff` days; otherwise the
raw calendar month. -/
def effective_period_month (period_dt : Option SDate) (cutoff : Nat) : Option Nat :=
  match period_dt with
  | none => none
  | some d => if d.day ≤ cutoff then some ((sub_days d cutoff).month) else some d.month

/-- From `business_factor/pipeline/steps.py`, `quarter_from`:
`None` when either month is falsy, else the label `Q{q}` with
`q = ((p - f - 1) % 12) // 3 + 1`, only when `q ∈ {1,2,3}`. -/
def quarter_from (period_month fye_month : Option Nat) : Option String :=
  if !truthy period_month || !truthy fye_month then none
  else
    let p : Int := (period_month.getD 0 : Nat)
    let f : Int := (fye_month.getD 0 : Nat)
    let q : Int := ((p - f - 1) % 12) / 3 + 1
    if q = 1 ∨ q = 2 ∨ q = 3 then some ("Q" ++ toString q) else none

/-- From `business_factor/pipeline/steps.py`, `choose_fye_month` (the row
closure inside `step4_compute_quarter`): the period month `pm` is the raw
calendar month of the resolved period-end date when present; an HTML FYE
month equal to `pm` is discarded in favour of the API month (or no result),
any other HTML month is kept, and the API month is the fallback. -/
def choose_fye_month (period_end_date : Option SDate)
    (fye_month_html fye_month_api : Option Nat) : Option Nat :=
  let pm : Option Nat := period_end_date.map (·.month)
  match fye_month_html with
  | some h =>
    match pm with
    | some p => if h = p then fye_month_api else some h
    | none => some h
  | none => fye_month_api

/-! ### Character-level string helpers (Python `str` methods) -/

/-- Python whitespace (`\s` in `re`, `str.strip`): space, tab, newline,
carriage return, vertical tab, form feed, and the non-breaking space. -/
def is_py_space (c : Char) : Bool :=
  c == ' ' || c == '\t' || c == '\n' || c == '\r' || c == '\x0b' || c == '\x0c' || c == '\xa0'

/-- Python `str.strip()` on a character list. -/
def py_strip_chars (l : List Char) : List Char :=
  ((l.dropWhile is_py_space).reverse.dropWhile is_py_space).reverse

/-- Python `str.strip()`. -/
def py_strip (s : String) : String := ⟨py_strip_chars s.data⟩

/-- Numeric value of a decimal digit character. -/
def digit_val (c : Char) : Nat := c.toNat - 48

/-- Value of a digit string, most significant digit first. -/
def to_nat_digits (l : List Char) : Nat := l.foldl (fun n c => n * 10 + digit_val c) 0

/-- From `src/busfactor/parsing/html.py`, `_MONTH_MAP`, key for key. -/
def month_map : List (String × Nat) :=
  [("jan", 1), ("jan.", 1), ("january", 1),
   ("feb", 2), ("feb.", 2), ("february", 2),
   ("mar", 3), ("mar.", 3), ("march", 3),
   ("apr", 4), ("apr.", 4), ("april", 4),
   ("may", 5),
   ("jun", 6), ("jun.", 6), ("june", 6),
   ("jul", 7), ("jul.", 7), ("july", 7),
   ("aug", 8), ("aug.", 8), ("august", 8),
   ("sep", 9), ("sept", 9), ("sep.", 9), ("sept.", 9), ("september", 9),
   ("oct", 10), ("oct.", 10), ("october", 10),
   ("nov", 11), ("nov.", 11), ("november", 11),
   ("dec", 12), ("dec.", 12), ("december", 12)]

/-- From `src/busfactor/parsing/html.py`, `_mon_word_to_num`:
`None` for a falsy string, else lookup of `s.strip().lower().rstrip(".")`. -/
def mon_word_to_num (s : String) : Option Nat :=
  if s.isEmpty then none
  else
    let key : List Char :=
      ((((py_strip_chars s.data).map Char.toLower).reverse.dropWhile (· == '.')).reverse)
    month_map.lookup ⟨key⟩

/-- Full match of `-{1,2}(\d{2})-\d{2}` (the `DATE_MD_DASH` pattern of
`src/busfactor/parsing/html.py`), returning the captured month digits. -/
def fullmatch_dash_md : List Char → Option Nat
  | ['-', '-', a, b, '-', c, d] =>
    if a.isDigit && b.isDigit && c.isDigit && d.isDigit then
      some (10 * digit_val a + digit_val b)
    else none
  | ['-', a, b, '-', c, d] =>
    if a.isDigit && b.isDigit && c.isDigit && d.isDigit then
      some (10 * digit_val a + digit_val b)
    else none
  | _ => none

/-- From `src/busfactor/parsing/html.py`, `_mm_from_dash_md`:
full match of `-{1,2}(\d{2})-\d{2}` on the stripped string; the captured
two digits are returned with no range check. -/
def mm_from_dash_md (s : String) : Option Nat := fullmatch_dash_md (py_strip_chars s.data)

/-- Full match of `(\d{1,2})/\d{1,2}` returning the first group. -/
def parse_slash_mm (l : List Char) : Option Nat :=
  let d1 := l.takeWhile Char.isDigit
  let rest := l.dropWhile Char.isDigit
  if 1 ≤ d1.length ∧ d1.length ≤ 2 then
    match rest with
    | '/' :: r2 =>
      if 1 ≤ r2.length ∧ r2.length ≤ 2 ∧ r2.all Char.isDigit then some (to_nat_digits d1)
      else none
    | _ => none
  else none

/-- From `src/parsing/patterns.py`, `_parse_mm_from_fye_text`:
`None` for a falsy string; a `12/31`-style or `--12-31`-style form yields
its month only when it lies in `1..12`. -/
def parse_mm_from_fye_text (s : String) : Option Nat :=
  if s.isEmpty then none
  else
    let l := py_strip_chars s.data
    match parse_slash_mm l with
    | some mm => if 1 ≤ mm ∧ mm ≤ 12 then some mm else none
    | none =>
      match fullmatch_dash_md l with
      | some mm => if 1 ≤ mm ∧ mm ≤ 12 then some mm else none
      | none => none

/-- The `if mm:` truthiness guard around a parsed month. -/
def keep_truthy_month : Option Nat → Option Nat
  | some mm => if mm = 0 then none else some mm
  | none => none

/-- From `src/parsing/patterns.py`, `extract_dei_from_html`, the
`fye_month` field: the raw text captured by `DEI_FYE_RE` (taken as input,
`none` when the inline tag is absent) is parsed by
`_parse_mm_from_fye_text` and kept when truthy. -/
def extract_dei_fye_month (fye_raw : Option String) : Option Nat :=
  match fye_raw with
  | none => none
  | some s => keep_truthy_month (parse_mm_from_fye_text s)

/-- Model of `pandas.to_datetime(s, errors="coerce")` restricted to the
month-word date grammar the engine feeds it (`"Month D, YYYY"`, as matched
by `DATE_WORD` and as reassembled by `_extract_split_dates_from_block`):
month word, day, optional comma, 4-digit year; calendar-invalid dates
(e.g. February 30) coerce to `NaT`, i.e. `none`. -/
def pd_to_datetime (s : String) : Option SDate :=
  let l := py_strip_chars s.data
  let monthChars := l.takeWhile (fun c => c.isAlpha || c == '.')
  let rest := l.dropWhile (fun c => c.isAlpha || c == '.')
  match mon_word_to_num ⟨monthChars⟩ with
  | none => none
  | some m =>
    let rest1 := rest.dropWhile is_py_space
    let dayChars := rest1.takeWhile Char.isDigit
    let rest2 := rest1.dropWhile Char.isDigit
    if dayChars.length < 1 ∨ 2 < dayChars.length then none
    else
      let rest3 := match rest2 with | ',' :: r => r | r => r
      let rest4 := rest3.dropWhile is_py_space
      let yearChars := rest4.takeWhile Char.isDigit
      let rest5 := rest4.dropWhile Char.isDigit
      if yearChars.length == 4 && rest5.isEmpty then
        let day := to_nat_digits dayChars
        let y : Int := (to_nat_digits yearChars : Nat)
        if 1 ≤ day ∧ day ≤ days_in_month y m then some ⟨y, m, day⟩ else none
      else none

/-! ### Candidate scoring (`_score_candidate`, `_score_candidate_month_only`)

The `ctx` argument of the Python scorers is only ever consulted through
`FY_PHRASE_RE.search(ctx)`; that regex outcome is embedded as a boolean
flag. -/

/-- From `src/busfactor/parsing/html.py`, `_score_candidate`. -/
def score_candidate (dt : Option SDate) (m : Nat) (pm : Option Nat) (fy_ctx : Bool) : Int :=
  let base : Int :=
    if truthy pm then
      let dist := month_distance (pm.getD 0) m
      (if dist = 3 ∨ dist = 6 ∨ dist = 9 then 6 else if 2 ≤ dist then 3 else 0) +
        (if ¬ (dist = 0 ∨ dist = 1 ∨ dist = 11) then 2 else 0)
    else 0
  let dayBonus : Int :=
    match dt with
    | some d => if 28 ≤ d.day ∧ d.day ≤ 31 then 1 else 0
    | none => 0
  base + dayBonus + (if fy_ctx then 4 else 0)

/-- From `src/busfactor/parsing/html.py`, `_score_candidate_month_only`. -/
def score_candidate_month_only (mm : Nat) (pm : Option Nat) (fy_ctx : Bool) : Int :=
  let base : Int :=
    if truthy pm then
      let dist := month_distance (pm.getD 0) mm
      (if dist = 3 ∨ dist = 6 ∨ dist = 9 then 6 else if 2 ≤ dist then 3 else 0) +
        (if ¬ (dist = 0 ∨ dist = 1 ∨ dist = 11) then 2 else 0)
    else 0
  base + (if fy_ctx then 4 else 0)

/-! ### Abstract document views

The regex engine iterating matches over a text block is external to the
embedded logic: each probe receives the list of matches it would iterate,
in the engine's iteration order, with date groups already passed through
`pd.to_datetime(..., errors="coerce")` (`none` is `NaT`) and with each
span's ±60-character context already reduced to its `FY_PHRASE_RE` regex
outcome. -/

/-- One match of an `ASOF_PATTERNS` regex: the two captured dates. -/
structure AsofMatch where
  d1 : Option SDate
  d2 : Option SDate
deriving DecidableEq, Repr

/-- One `DATE_ANY_OR_MD_RE` match inside a block: matched text, span, and
the `FY_PHRASE_RE` outcome on the surrounding ±60-character context. -/
structure Tok where
  raw : String
  s : Nat
  e : Nat
  fy : Bool
deriving DecidableEq, Repr

/-- One `SPLIT_DATE_RE` match: the three captured groups, span, context. -/
structure SplitTok where
  mon : String
  day : String
  year : String
  s : Nat
  e : Nat
  fy : Bool
deriving DecidableEq, Repr

/-- One month-word match (`MONTH_DAY_NOYEAR_RE` / `MONTH_ONLY_RE` group 1). -/
structure FbTok where
  word : String
  s : Nat
  e : Nat
  fy : Bool
deriving DecidableEq, Repr

/-- A candidate of `_extract_dates_from_block`:
`(raw, dt|None, month|None, (start, end))`, plus the context flag. -/
structure Cand where
  raw : String
  dt : Option SDate
  mm : Option Nat
  s : Nat
  e : Nat
  fy : Bool
deriving DecidableEq, Repr

/-- From `src/busfactor/parsing/html.py`,
`_extract_split_dates_from_block`: reassemble each `Month DD ... YYYY`
match into `"{mon} {day}, {year}"`, deduplicate by that string, keep the
parseable ones, and stop once `limit` candidates are collected. -/
def extract_split_dates_go (limit : Nat) :
    List SplitTok → List String → List Cand → List Cand
  | [], _, out => out
  | t :: rest, seen, out =>
    let ds := t.mon ++ " " ++ t.day ++ ", " ++ t.year
    if seen.contains ds then extract_split_dates_go limit rest seen out
    else
      let seen' := ds :: seen
      let out' :=
        match pd_to_datetime ds with
        | some dt => out ++ [⟨ds, some dt, some dt.month, t.s, t.e, t.fy⟩]
        | none => out
      if limit ≤ out'.length then out'
      else extract_split_dates_go limit rest seen' out'

/-- Entry point of `_extract_split_dates_from_block`. -/
def extract_split_dates (toks : List SplitTok) (limit : Nat) : List Cand :=
  extract_split_dates_go limit toks [] []

/-- Loop of `_extract_dates_from_block` over the `DATE_ANY_OR_MD_RE`
matches: skip overlaps with the split-date spans, emit a month-only
candidate for a dashed `--MM-DD` token, a dated candidate for a parseable
token, drop unparseable tokens, and stop at `limit`. -/
def extract_dates_go (limit : Nat) (seen_spans : List (Nat × Nat)) :
    List Tok → List Cand → List Cand
  | [], out => out
  | t :: rest, out =>
    if seen_spans.any (fun se => !(t.e ≤ se.1 || se.2 ≤ t.s)) then
      extract_dates_go limit seen_spans rest out
    else
      let ds := py_strip t.raw
      let out' :=
        match fullmatch_dash_md ds.data with
        | some mmv => out ++ [⟨ds, none, some mmv, t.s, t.e, t.fy⟩]
        | none =>
          match pd_to_datetime ds with
          | some dt => out ++ [⟨ds, some dt, some dt.month, t.s, t.e, t.fy⟩]
          | none => out
      if limit ≤ out'.length then out'
      else extract_dates_go limit seen_spans rest out'

/-- From `src/busfactor/parsing/html.py`, `_extract_dates_from_block`. -/
def extract_dates_from_block (split_toks : List SplitTok) (any_toks : List Tok)
    (limit : Nat) : List Cand :=
  let merged := extract_split_dates split_toks limit
  let seen_spans := merged.map (fun c => (c.s, c.e))
  extract_dates_go limit seen_spans any_toks merged

/-! ### The FYE probe fallback chain -/

/-- One `key` step of the inner loop of `probe_fye_from_balance_asof`:
a parsed date whose month is outside the near set yields that month. -/
def date_month_ok (bad : Finset Nat) : Option SDate → Option Nat
  | some dt => if dt.month ∈ bad then none else some dt.month
  | none => none

/-- Inner loop of `probe_fye_from_balance_asof` for one match: try the
second date then the first, returning the first month that parses and is
outside the near set. -/
def asof_keys (bad : Finset Nat) (a : AsofMatch) : Option Nat :=
  match date_month_ok bad a.d2 with
  | some m => some m
  | none => date_month_ok bad a.d1

/-- Loop of `probe_fye_from_balance_asof` over the matches. -/
def asof_go (bad : Finset Nat) : List AsofMatch → Option Nat
  | [] => none
  | a :: rest =>
    match asof_keys bad a with
    | some m => some m
    | none => asof_go bad rest

/-- From `src/busfactor/parsing/html.py`, `probe_fye_from_balance_asof`:
iterate all `ASOF_PATTERNS` matches over the whole text (taken as input in
iteration order) and return the first surviving month. -/
def probe_fye_from_balance_asof (ms : List AsofMatch)
    (period_month : Option Nat) : Option Nat :=
  asof_go (near_months_set period_month) ms

/-- The `cand` list of the as-of branch of `probe_fye_from_balance_window`:
of the two as-of dates (in `d1, d2` order), those that parsed and whose
month is outside the near set. -/
def asof_survivors (bad : Finset Nat) (a : AsofMatch) : List (Nat × SDate) :=
  ([a.d1, a.d2].filterMap id).filterMap
    (fun dt => if dt.month ∈ bad then none else some (dt.month, dt))

/-- `sort(key=lambda x: (-score, pos))[0]` / `sorted(..., key=(-sc, pos))[0]`:
the minimum under the lexicographic key, first occurrence winning ties. -/
def key_lt (a b : Int × Nat) : Bool := a.1 < b.1 || (a.1 = b.1 && a.2 < b.2)

/-- Stable selection of the element with the least key. -/
def min_by_key {α : Type} (key : α → Int × Nat) : List α → Option α
  | [] => none
  | x :: xs => some (xs.foldl (fun best c => if key_lt (key c) (key best) then c else best) x)

/-- A balance-sheet heading of `pat.iter_balance_sheet_headings`, with the
derived views of its post-heading window: the assets-gate regex outcome on
`text[start : start+max(window_lo,800)]`, the first `ASOF` match inside
the truncated block, the scanner's match lists over the truncated block,
and the `FY_PHRASE_RE` outcome on the whole block (the as-of scoring
context). -/
structure HeadingBlock where
  assets_gate : Bool
  asof : Option AsofMatch
  split_toks : List SplitTok
  any_toks : List Tok
  block_fy : Bool
deriving DecidableEq, Repr

/-- A heading as seen by `_fallback_month_only_from_balance_block`: the
assets gate and the month-word matches over its (untruncated) window. -/
structure FbHeading where
  assets_gate : Bool
  month_day_toks : List FbTok
  month_only_toks : List FbTok
deriving DecidableEq, Repr

/-- The two windowed views of one document text consumed by
`probe_fye_from_balance_window` and its month-only fallback. -/
structure DocWindows where
  headings : List HeadingBlock
  fb_headings : List FbHeading
deriving DecidableEq, Repr

/-- Candidate collection of `_fallback_month_only_from_balance_block`
(one pass): month word to month, near-set filter, month-only score with
the pass penalty, position carried for tie-breaking. -/
def fb_collect (bad : Finset Nat) (pm : Option Nat) (penalty : Int)
    (toks : List FbTok) : List (Int × Nat × Nat) :=
  toks.filterMap (fun t =>
    match mon_word_to_num t.word with
    | none => none
    | some mmv =>
      if mmv = 0 then none
      else if truthy pm ∧ mmv ∈ bad then none
      else some (score_candidate_month_only mmv pm t.fy - penalty, mmv, t.s))

/-- The `best_by_month` dict of `_fallback_month_only_from_balance_block`:
keyed by month in first-insertion order, keeping the best score and, on a
score tie, the earliest position. -/
def upd_best : List (Nat × Int × Nat) → (Int × Nat × Nat) → List (Nat × Int × Nat)
  | [], (sc, mmv, pos) => [(mmv, sc, pos)]
  | (m0, s0, p0) :: rest, (sc, mmv, pos) =>
    if mmv = m0 then
      if sc > s0 ∨ (sc = s0 ∧ pos < p0) then (m0, sc, pos) :: rest
      else (m0, s0, p0) :: rest
    else (m0, s0, p0) :: upd_best rest (sc, mmv, pos)

/-- One heading of `_fallback_month_only_from_balance_block`: gate on
assets, collect month+day candidates, fall back to bare month words with
the `-1` penalty, deduplicate by month, and return the top-scoring month
(earliest position breaking ties). -/
def fb_heading_result (pm : Option Nat) (bad : Finset Nat) (fb : FbHeading) : Option Nat :=
  if !fb.assets_gate then none
  else
    let c1 := fb_collect bad pm 0 fb.month_day_toks
    let cands := if c1.isEmpty then fb_collect bad pm 1 fb.month_only_toks else c1
    if cands.isEmpty then none
    else
      let best := (cands.foldl upd_best []).map (fun x => (x.2.1, x.1, x.2.2))
      (min_by_key (fun x => (-x.1, x.2.2)) best).map (fun x => x.2.1)

/-- From `src/busfactor/parsing/html.py`,
`_fallback_month_only_from_balance_block`: first heading producing
candidates wins. -/
def fallback_month_only (pm : Option Nat) (bad : Finset Nat) :
    List FbHeading → Option Nat
  | [] => none
  | fb :: rest =>
    match fb_heading_result pm bad fb with
    | some m => some m
    | none => fallback_month_only pm bad rest

/-- Python `if mm: return mm` chaining: a `some` result is final,
otherwise the fallback value is used. -/
def or_else (a b : Option Nat) : Option Nat :=
  match a with
  | some m => some m
  | none => b

/-- Resolution of the as-of `cand` list inside
`probe_fye_from_balance_window`: a single survivor is returned; two
survivors are scored, with `scored.sort(reverse=True)` picking the
lexicographically largest `(score, month)` pair; an empty list falls
through to the generic scan. -/
def asof_pick (pm : Option Nat) (fy : Bool) : List (Nat × SDate) → Option Nat
  | [(m, _)] => some m
  | [(m1, dt1), (m2, dt2)] =>
    let s1 := score_candidate (some dt1) m1 pm fy
    let s2 := score_candidate (some dt2) m2 pm fy
    if s2 > s1 ∨ (s2 = s1 ∧ m2 > m1) then some m2 else some m1
  | _ => none

/-- The as-of branch of one heading: nothing without an as-of match,
otherwise the survivor resolution. -/
def asof_branch (pm : Option Nat) (bad : Finset Nat) (fy : Bool) :
    Option AsofMatch → Option Nat
  | none => none
  | some a => asof_pick pm fy (asof_survivors bad a)

/-- The generic windowed scan of one heading: run the candidate scanner
over the truncated block, filter out falsy and near-set months, score the
rest (context flag per span), and select by `(-score, position)`. -/
def generic_scan (pm : Option Nat) (bad : Finset Nat) (h : HeadingBlock) : Option Nat :=
  let items := extract_dates_from_block h.split_toks h.any_toks 16
  let cands := items.filterMap (fun c =>
    match c.mm with
    | none => none
    | some mmv =>
      if mmv = 0 then none
      else if truthy pm ∧ mmv ∈ bad then none
      else some (score_candidate c.dt mmv pm c.fy, c.s, mmv))
  (min_by_key (fun x => (-x.1, x.2.1)) cands).map (fun x => x.2.2)

/-- One heading of `probe_fye_from_balance_window`: the assets gate, then
the as-of branch, then the generic windowed scan. -/
def heading_result (pm : Option Nat) (bad : Finset Nat) (h : HeadingBlock) : Option Nat :=
  if !h.assets_gate then none
  else or_else (asof_branch pm bad h.block_fy h.asof) (generic_scan pm bad h)

/-- Loop of `probe_fye_from_balance_window` over the ranked headings; the
empty case is the final month-only fallback. -/
def window_go (fbs : List FbHeading) (pm : Option Nat) (bad : Finset Nat) :
    List HeadingBlock → Option Nat
  | [] => fallback_month_only pm bad fbs
  | h :: rest =>
    match heading_result pm bad h with
    | some m => some m
    | none => window_go fbs pm bad rest

/-- From `src/busfactor/parsing/html.py`, `probe_fye_from_balance_window`:
try each ranked heading in order; when every heading fails, run the
month-only fallback over the document. -/
def probe_fye_from_balance_window (doc : DocWindows) (pm : Option Nat) : Option Nat :=
  window_go doc.fb_headings pm (near_months_set pm) doc.headings

/-- From `src/busfactor/parsing/html.py`, `probe_fye_from_text`: iterate
the `FYE_PATTS` matches over the whole document (group 1 month words, in
iteration order); return the first whose month is truthy and not in the
near set of the period month. -/
def probe_fye_from_text (ms : List String) (period_month : Option Nat) : Option Nat :=
  match ms with
  | [] => none
  | w :: rest =>
    match mon_word_to_num w with
    | none => probe_fye_from_text rest period_month
    | some month =>
      if month = 0 then probe_fye_from_text rest period_month
      else if period_month = none ∨ month_in_near_set month period_month = false then
        some month
      else probe_fye_from_text rest period_month

/-- From `business_factor/pipeline/steps.py`, `step3_html_parse`, lines
128-171 (the `_fye_month_html` resolution): the inline-tag DEI month is
written first and, when truthy, the text probes are never consulted;
otherwise the as-of probe, the balance-window probe and the free-text
probe run in order, each only when the previous one was falsy. -/
def step3_fye_month (dei_fye : Option Nat) (asof_matches : List AsofMatch)
    (doc : DocWindows) (text_matches : List String) (pm : Option Nat) : Option Nat :=
  if truthy dei_fye then dei_fye
  else
    let mm := probe_fye_from_balance_asof asof_matches pm
    let mm := if !truthy mm then probe_fye_from_balance_window doc pm else mm
    let mm := if !truthy mm then probe_fye_from_text text_matches pm else mm
    if truthy mm then mm else none

/-! ### The text normalizer (`html_to_text`)

The regex substitutions of `html_to_text` and `strip_page_tokens` are
implemented character by character, faithful to the patterns, with an
explicit fuel argument (initialized to the input length; every step
consumes at least one character).  `html.unescape` is modelled from the
Python standard library restricted to semicolon-terminated references to
the basic named entities (`amp`, `lt`, `gt`, `quot`, `nbsp`), decoded in
a single pass exactly as the stdlib does. -/

/-- Case-insensitive prefix test (`re.I` on ASCII patterns). -/
def ci_prefix (pat l : List Char) : Bool :=
  decide (((l.take pat.length).map Char.toLower) = pat)

/-- Model of Python `html.unescape`, restricted to `&amp;` / `&lt;` /
`&gt;` / `&quot;` / `&nbsp;`: single pass, each reference decoded once and
the replacement never rescanned; an ampersand starting no known reference
is kept as-is. -/
def unescape_go : Nat → List Char → List Char
  | 0, l => l
  | _, [] => []
  | fuel + 1, '&' :: rest =>
    if ("amp;".data).isPrefixOf rest then '&' :: unescape_go fuel (rest.drop 4)
    else if ("lt;".data).isPrefixOf rest then '<' :: unescape_go fuel (rest.drop 3)
    else if ("gt;".data).isPrefixOf rest then '>' :: unescape_go fuel (rest.drop 3)
    else if ("quot;".data).isPrefixOf rest then '"' :: unescape_go fuel (rest.drop 5)
    else if ("nbsp;".data).isPrefixOf rest then '\xa0' :: unescape_go fuel (rest.drop 5)
    else '&' :: unescape_go fuel rest
  | fuel + 1, c :: rest => c :: unescape_go fuel rest

/-- `pyhtml.unescape` as called by `html_to_text`. -/
def unescape (l : List Char) : List Char := unescape_go l.length l

/-- From `business_factor/utils/text.py`, `replace_nbsp`:
replace each non-breaking space with an ordinary space. -/
def replace_nbsp (s : String) : String :=
  ⟨s.data.map (fun c => if c == '\xa0' then ' ' else c)⟩

/-- Drop through the first occurrence of `pat` (case-sensitive), returning
the remainder after it; `none` when `pat` never occurs. -/
def drop_through (pat : List Char) : Nat → List Char → Option (List Char)
  | 0, _ => none
  | _ + 1, [] => if pat.isEmpty then some [] else none
  | fuel + 1, l@(_ :: rest) =>
    if pat.isPrefixOf l then some (l.drop pat.length)
    else drop_through pat fuel rest

/-- Drop through the first occurrence of `pat`, case-insensitively. -/
def ci_drop_through (pat : List Char) : Nat → List Char → Option (List Char)
  | 0, _ => none
  | _ + 1, [] => if pat.isEmpty then some [] else none
  | fuel + 1, l@(_ :: rest) =>
    if ci_prefix pat l then some (l.drop pat.length)
    else ci_drop_through pat fuel rest

/-- `re.sub(r"<!--.*?-->", " ", text, flags=re.S)`: each comment —
non-greedily up to the first `-->` — becomes one space; a `<!--` with no
closing `-->` matches nothing. -/
def remove_comments_go : Nat → List Char → List Char
  | 0, l => l
  | _, [] => []
  | fuel + 1, l@(c :: rest) =>
    if ("<!--".data).isPrefixOf l then
      match drop_through ("-->".data) l.length (l.drop 4) with
      | some rest2 => ' ' :: remove_comments_go fuel rest2
      | none => c :: remove_comments_go fuel rest
    else c :: remove_comments_go fuel rest

/-- `<tag\b[^>]*>.*?</tag>` (case-insensitive, dot matching newlines):
match the opening tag with a word boundary, skip to its `>`, then
non-greedily to the closing tag. Returns the remainder after the close. -/
def match_block (opent closet : List Char) (l : List Char) : Option (List Char) :=
  if ci_prefix opent l then
    let l1 := l.drop opent.length
    let boundary_ok : Bool :=
      match l1 with
      | [] => true
      | c :: _ => !(c.isAlphanum || c == '_')
    if boundary_ok then
      match l1.dropWhile (fun c => !(c == '>')) with
      | '>' :: l2 => ci_drop_through closet (l2.length + 1) l2
      | _ => none
    else none
  else none

/-- One `re.sub` pass removing `<open ...>...</close>` blocks, each
replaced by one space. -/
def remove_block_go (opent closet : List Char) : Nat → List Char → List Char
  | 0, l => l
  | _, [] => []
  | fuel + 1, l@(c :: rest) =>
    match match_block opent closet l with
    | some rest2 => ' ' :: remove_block_go opent closet fuel rest2
    | none => c :: remove_block_go opent closet fuel rest

/-- `re.sub(r"<script\b[^>]*>.*?</script>", " ", text, flags=re.I|re.S)`. -/
def remove_script_blocks (l : List Char) : List Char :=
  remove_block_go ("<script".data) ("</script>".data) l.length l

/-- `re.sub(r"<style\b[^>]*>.*?</style>", " ", text, flags=re.I|re.S)`. -/
def remove_style_blocks (l : List Char) : List Char :=
  remove_block_go ("<style".data) ("</style>".data) l.length l

/-- `re.sub(r"<[^>]+>", " ", text)`: a `<`, at least one non-`>`
character, then `>`, replaced by one space; a `<` with no `>` after it
(or an immediate `<>`) matches nothing at that position. -/
def remove_tags_go : Nat → List Char → List Char
  | 0, l => l
  | _, [] => []
  | fuel + 1, '<' :: rest =>
    (match rest with
     | '>' :: _ => '<' :: remove_tags_go fuel rest
     | _ =>
       match rest.dropWhile (fun c => !(c == '>')) with
       | '>' :: r2 => ' ' :: remove_tags_go fuel r2
       | _ => '<' :: remove_tags_go fuel rest)
  | fuel + 1, c :: rest => c :: remove_tags_go fuel rest

/-- Tag-removal pass of `html_to_text`. -/
def remove_tags (l : List Char) : List Char := remove_tags_go l.length l

/-- Length of the `PAGE_TOKEN_RE` match starting at this position
(`<PAGE>|##PAGE|Page\s*\d+(?:\s*of\s*\d+)?|\d+\s*PAGE`, IGNORECASE),
alternatives tried in order. -/
def match_page_token (l : List Char) : Option Nat :=
  if ci_prefix ("<page>".data) l then some 6
  else if ci_prefix ("##page".data) l then some 6
  else if ci_prefix ("page".data) l then
    let r1 := l.drop 4
    let sp1 := r1.takeWhile is_py_space
    let r2 := r1.dropWhile is_py_space
    let ds1 := r2.takeWhile Char.isDigit
    if ds1.isEmpty then none
    else
      let r3 := r2.drop ds1.length
      let base := 4 + sp1.length + ds1.length
      let sp2 := r3.takeWhile is_py_space
      let r4 := r3.dropWhile is_py_space
      if ci_prefix ("of".data) r4 then
        let r5 := r4.drop 2
        let sp3 := r5.takeWhile is_py_space
        let r6 := r5.dropWhile is_py_space
        let ds2 := r6.takeWhile Char.isDigit
        if ds2.isEmpty then some base
        else some (base + sp2.length + 2 + sp3.length + ds2.length)
      else some base
  else
    let ds := l.takeWhile Char.isDigit
    if ds.isEmpty then none
    else
      let r1 := l.drop ds.length
      let sp := r1.takeWhile is_py_space
      let r2 := r1.dropWhile is_py_space
      if ci_prefix ("page".data) r2 then some (ds.length + sp.length + 4)
      else none

/-- Substitution loop of `PAGE_TOKEN_RE.sub(" ", text)`. -/
def strip_page_go : Nat → List Char → List Char
  | 0, l => l
  | _, [] => []
  | fuel + 1, l@(c :: rest) =>
    match match_page_token l with
    | some n => ' ' :: strip_page_go fuel (l.drop n)
    | none => c :: strip_page_go fuel rest

/-- From `business_factor/utils/text.py`, `strip_page_tokens`. -/
def strip_page_tokens (s : String) : String :=
  if s.isEmpty then s else ⟨strip_page_go s.data.length s.data⟩

/-- `re.sub(r"\s+", " ", text)`: each maximal whitespace run becomes one
space.  The flag records whether the previous character was whitespace. -/
def collapse_ws_go : Bool → List Char → List Char
  | _, [] => []
  | flag, c :: rest =>
    if is_py_space c then
      if flag then collapse_ws_go true rest
      else ' ' :: collapse_ws_go true rest
    else c :: collapse_ws_go false rest

/-- Whitespace collapse, then `str.strip()` — the final two stages of
`html_to_text`. -/
def ws_normalize (s : String) : String :=
  py_strip ⟨collapse_ws_go false s.data⟩

/-- From `src/busfactor/parsing/html.py`, `html_to_text`: unescape,
replace NBSP, strip comments, scripts, styles, all remaining tags,
pagination tokens, collapse whitespace, trim. -/
def html_to_text (s : String) : String :=
  let t1 := (replace_nbsp ⟨unescape s.data⟩).data
  let t2 := remove_comments_go t1.length t1
  let t3 := remove_script_blocks t2
  let t4 := remove_style_blocks t3
  let t5 := remove_tags t4
  let t6 := (strip_page_tokens ⟨t5⟩).data
  ws_normalize ⟨t6⟩

/-! ### Lemmas about date arithmetic -/

theorem days_in_month_ge (y : Int) (m : Nat) : 28 ≤ days_in_month y m := by
  unfold days_in_month
  split
  · split <;> omega
  · split <;> omega

theorem sub_days_lt (n : Nat) (d : SDate) (h : n < d.day) :
    sub_days d n = ⟨d.year, d.month, d.day - n⟩ := by
  induction n generalizing d with
  | zero => simp [sub_days]
  | succ k ih =>
    have h2 : 2 ≤ d.day := by omega
    have hp : pred_day d = ⟨d.year, d.month, d.day - 1⟩ := by
      unfold pred_day; simp [h2]
    show sub_days (pred_day d) k = _
    rw [hp, ih ⟨d.year, d.month, d.day - 1⟩ (by show k < d.day - 1; omega)]
    simp only [SDate.mk.injEq, true_and]
    omega

theorem sub_days_add (a b : Nat) (d : SDate) :
    sub_days d (a + b) = sub_days (sub_days d a) b := by
  induction a generalizing d with
  | zero => simp [sub_days]
  | succ k ih =>
    have : k + 1 + b = (k + b) + 1 := by omega
    rw [this]
    show sub_days (pred_day d) (k + b) = _
    rw [ih (pred_day d)]
    rfl

/-- Subtracting 10 days from a day-of-month in `1..10` always lands in the
previous calendar month (December for January). -/
theorem sub_days_ten_month (d : SDate) (hd1 : 1 ≤ d.day) (hd10 : d.day ≤ 10) :
    (sub_days d 10).month = if d.month = 1 then 12 else d.month - 1 := by
  have hsplit : (10 : Nat) = (d.day - 1) + (11 - d.day) := by omega
  rw [hsplit, sub_days_add]
  rw [sub_days_lt (d.day - 1) d (by omega)]
  have hone : d.day - (d.day - 1) = 1 := by omega
  rw [hone]
  have hj : (11 - d.day) = (10 - d.day) + 1 := by omega
  rw [hj]
  set d1 : SDate := ⟨d.year, d.month, 1⟩ with hd1def
  show (sub_days (pred_day d1) (10 - d.day)).month = _
  have hpred : pred_day d1 =
      if d.month = 1 then ⟨d.year - 1, 12, 31⟩
      else ⟨d.year, d.month - 1, days_in_month d.year (d.month - 1)⟩ := by
    unfold pred_day
    simp [hd1def]
  by_cases hm : d.month = 1
  · rw [hpred, if_pos hm]
    rw [sub_days_lt (10 - d.day) ⟨d.year - 1, 12, 31⟩ (by simp; omega)]
    simp [hm]
  · rw [hpred, if_neg hm]
    have hge := days_in_month_ge d.year (d.month - 1)
    rw [sub_days_lt (10 - d.day) ⟨d.year, d.month - 1, days_in_month d.year (d.month - 1)⟩
      (by simp; omega)]
    simp [hm]

/-! ### C2, C3, C9, C10 -/

/-- C2: for provided (truthy) months `p` and `f`, `quarter_from` returns the
label `Q{q}` for `q = ((p - f - 1) mod 12) / 3 + 1` exactly when
`q ∈ {1,2,3}`, and `none` otherwise — in particular `none` in the annual
case `p = f` and `none` whenever either input is absent. -/
theorem quarter_from_spec (p f : Nat) (hp : 1 ≤ p) (hf : 1 ≤ f) :
    (∀ q : Int, q = (((p : Int) - (f : Int) - 1) % 12) / 3 + 1 →
      ((q = 1 ∨ q = 2 ∨ q = 3) →
        quarter_from (some p) (some f) = some ("Q" ++ toString q)) ∧
      (¬ (q = 1 ∨ q = 2 ∨ q = 3) → quarter_from (some p) (some f) = none)) ∧
    (p = f → quarter_from (some p) (some f) = none) ∧
    quarter_from none (some f) = none ∧
    quarter_from (some p) none = none ∧
    quarter_from none none = none := by
  have htp : truthy (some p) = true := by simp [truthy]; omega
  have htf : truthy (some f) = true := by simp [truthy]; omega
  refine ⟨?_, ?_, ?_, ?_, ?_⟩
  · intro q hq
    subst hq
    constructor
    · intro hmem
      simp only [quarter_from, htp, htf, Bool.not_true, Bool.or_self, Bool.false_eq_true,
        if_false, Option.getD_some]
      rw [if_pos hmem]
    · intro hmem
      simp only [quarter_from, htp, htf, Bool.not_true, Bool.or_self, Bool.false_eq_true,
        if_false, Option.getD_some]
      rw [if_neg hmem]
  · intro hpf
    subst hpf
    simp only [quarter_from, htp, htf, Bool.not_true, Bool.or_self, Bool.false_eq_true,
      if_false, Option.getD_some]
    have h1 : ((p : Int) - (p : Int) - 1) % 12 = 11 := by omega
    rw [if_neg (by rw [h1]; norm_num)]
  · simp [quarter_from, truthy]
  · simp [quarter_from, truthy, htp]
  · simp [quarter_from, truthy]

theorem quarter_from_spec_witness :
    (1 : Nat) ≤ 7 ∧ (1 : Nat) ≤ 1 ∧
    quarter_from (some 7) (some 1) = some "Q2" ∧
    quarter_from (some 3) (some 3) = none := by
  refine ⟨by decide, by decide, ?_, ?_⟩
  · have h := ((quarter_from_spec 7 1 (by decide) (by decide)).1 2 (by decide)).1 (by decide)
    simpa using h
  · exact (quarter_from_spec 3 3 (by decide) (by decide)).2.1 rfl

/-- C3: with cutoff 10, the effective period month is absent for a missing
date; for a day of month in `1..10` it is the month of the date shifted
back by 10 days, which is always the previous calendar month; for a day
greater than 10 it is the raw calendar month. -/
theorem effective_period_month_spec (d : SDate) (hd1 : 1 ≤ d.day) :
    effective_period_month none 10 = none ∧
    (d.day ≤ 10 →
      effective_period_month (some d) 10 = some ((sub_days d 10).month) ∧
      (sub_days d 10).month = (if d.month = 1 then 12 else d.month - 1)) ∧
    (10 < d.day → effective_period_month (some d) 10 = some d.month) := by
  refine ⟨rfl, ?_, ?_⟩
  · intro h10
    refine ⟨by simp [effective_period_month, h10], sub_days_ten_month d hd1 h10⟩
  · intro h10
    simp [effective_period_month]
    omega

theorem effective_period_month_spec_witness :
    (1 : Nat) ≤ (5 : Nat) ∧
    effective_period_month (some ⟨2010, 7, 5⟩) 10 = some 6 ∧
    effective_period_month (some ⟨2010, 7, 15⟩) 10 = some 7 := by
  refine ⟨by decide, ?_, ?_⟩
  · have h := (effective_period_month_spec ⟨2010, 7, 5⟩ (by decide)).2.1 (by decide)
    rw [h.1, h.2]
    decide
  · exact (effective_period_month_spec ⟨2010, 7, 15⟩ (by decide)).2.2 (by decide)

/-- C9: when no period month is known, the near set is empty and the
exclusion filter passes every month. -/
theorem near_set_empty_no_period :
    near_months_set none = ∅ ∧ ∀ m : Nat, month_in_near_set m none = false := by
  exact ⟨rfl, fun m => rfl⟩

/-- C10: for a row with a resolved period-end date, an HTML FYE month equal
to the raw calendar month of that date is discarded in favour of the API
month (or absence), while an HTML month differing from the period month —
including by exactly one — is kept; with no HTML month the API month is
used. -/
theorem choose_fye_month_spec (d : SDate) (h : Nat) (api : Option Nat) :
    (h = d.month → choose_fye_month (some d) (some h) api = api) ∧
    (h ≠ d.month → choose_fye_month (some d) (some h) api = some h) ∧
    choose_fye_month (some d) none api = api := by
  refine ⟨?_, ?_, rfl⟩
  · intro he; simp [choose_fye_month, he]
  · intro hne; simp [choose_fye_month, hne]

/-! ### Membership lemmas for the probe chain -/

theorem foldl_pick_mem {α : Type} (key : α → Int × Nat) (l : List α) (acc : α) :
    l.foldl (fun best c => if key_lt (key c) (key best) then c else best) acc = acc ∨
      l.foldl (fun best c => if key_lt (key c) (key best) then c else best) acc ∈ l := by
  induction l generalizing acc with
  | nil => exact Or.inl rfl
  | cons c cs ih =>
    simp only [List.foldl_cons]
    rcases ih (if key_lt (key c) (key acc) then c else acc) with h | h
    · rw [h]
      by_cases hk : key_lt (key c) (key acc)
      · rw [if_pos hk]; exact Or.inr (List.mem_cons_self c cs)
      · rw [if_neg hk]; exact Or.inl rfl
    · exact Or.inr (List.mem_cons_of_mem c h)

theorem mem_of_min_by_key {α : Type} (key : α → Int × Nat) (l : List α) (x : α)
    (h : min_by_key key l = some x) : x ∈ l := by
  cases l with
  | nil => simp [min_by_key] at h
  | cons y ys =>
    simp only [min_by_key, Option.some.injEq] at h
    rcases foldl_pick_mem key ys y with h2 | h2
    · rw [← h, h2]; exact List.mem_cons_self y ys
    · rw [← h]; exact List.mem_cons_of_mem y h2

theorem date_month_ok_not_bad {bad : Finset Nat} {o : Option SDate} {m : Nat}
    (h : date_month_ok bad o = some m) : m ∉ bad := by
  cases o with
  | none => simp [date_month_ok] at h
  | some dt =>
    simp only [date_month_ok] at h
    by_cases hb : dt.month ∈ bad
    · rw [if_pos hb] at h; exact absurd h (by simp)
    · rw [if_neg hb] at h
      simp only [Option.some.injEq] at h
      rw [← h]; exact hb

theorem asof_keys_not_bad {bad : Finset Nat} {a : AsofMatch} {m : Nat}
    (h : asof_keys bad a = some m) : m ∉ bad := by
  unfold asof_keys at h
  cases h2 : date_month_ok bad a.d2 with
  | some m0 =>
    rw [h2] at h
    simp only [Option.some.injEq] at h
    rw [← h]; exact date_month_ok_not_bad h2
  | none =>
    rw [h2] at h
    exact date_month_ok_not_bad h

theorem asof_go_not_bad {bad : Finset Nat} {ms : List AsofMatch} {m : Nat}
    (h : asof_go bad ms = some m) : m ∉ bad := by
  induction ms with
  | nil => simp [asof_go] at h
  | cons a rest ih =>
    unfold asof_go at h
    cases hk : asof_keys bad a with
    | some m0 =>
      rw [hk] at h
      simp only [Option.some.injEq] at h
      rw [← h]; exact asof_keys_not_bad hk
    | none => rw [hk] at h; exact ih h

theorem asof_survivors_not_bad {bad : Finset Nat} {a : AsofMatch}
    {x : Nat × SDate} (h : x ∈ asof_survivors bad a) : x.1 ∉ bad := by
  unfold asof_survivors at h
  rcases List.mem_filterMap.mp h with ⟨dt, _, hdt⟩
  by_cases hb : dt.month ∈ bad
  · rw [if_pos hb] at hdt; exact absurd hdt (by simp)
  · rw [if_neg hb] at hdt
    simp only [Option.some.injEq] at hdt
    rw [← hdt]; exact hb

theorem upd_best_month_mem (acc : List (Nat × Int × Nat)) (c : Int × Nat × Nat)
    (x : Nat × Int × Nat) (h : x ∈ upd_best acc c) :
    x.1 ∈ acc.map (fun y => y.1) ∨ x.1 = c.2.1 := by
  induction acc with
  | nil =>
    rcases c with ⟨sc, mmv, pos⟩
    simp only [upd_best, List.mem_singleton] at h
    rw [h]; exact Or.inr rfl
  | cons y ys ih =>
    rcases c with ⟨sc, mmv, pos⟩
    rcases y with ⟨m0, s0, p0⟩
    unfold upd_best at h
    by_cases hm : mmv = m0
    · rw [if_pos hm] at h
      by_cases hrep : sc > s0 ∨ (sc = s0 ∧ pos < p0)
      · rw [if_pos hrep] at h
        rcases List.mem_cons.mp h with h1 | h1
        · rw [h1]; left; simp
        · left; simp only [List.map_cons, List.mem_cons]
          right; exact List.mem_map_of_mem (fun y => y.1) h1
      · rw [if_neg hrep] at h
        rcases List.mem_cons.mp h with h1 | h1
        · rw [h1]; left; simp
        · left; simp only [List.map_cons, List.mem_cons]
          right; exact List.mem_map_of_mem (fun y => y.1) h1
    · rw [if_neg hm] at h
      rcases List.mem_cons.mp h with h1 | h1
      · rw [h1]; left; simp
      · rcases ih h1 with h2 | h2
        · left; simp only [List.map_cons, List.mem_cons]; right; exact h2
        · right; exact h2

theorem foldl_upd_best_month_mem (l : List (Int × Nat × Nat))
    (acc : List (Nat × Int × Nat)) (x : Nat × Int × Nat)
    (h : x ∈ l.foldl upd_best acc) :
    x.1 ∈ acc.map (fun y => y.1) ∨ x.1 ∈ l.map (fun c => c.2.1) := by
  induction l generalizing acc with
  | nil => simp only [List.foldl_nil] at h; left; exact List.mem_map_of_mem (fun y => y.1) h
  | cons c cs ih =>
    simp only [List.foldl_cons] at h
    rcases ih (upd_best acc c) h with h1 | h1
    · rcases List.mem_map.mp h1 with ⟨y, hy, hyx⟩
      rcases upd_best_month_mem acc c y hy with h2 | h2
      · left; rw [← hyx]; exact h2
      · right; rw [← hyx, h2]; simp
    · right; simp only [List.map_cons, List.mem_cons]; right; exact h1

theorem fb_collect_not_bad {bad : Finset Nat} {pm : Option Nat} {penalty : Int}
    {toks : List FbTok} {x : Int × Nat × Nat} (hpm : truthy pm = true)
    (h : x ∈ fb_collect bad pm penalty toks) : x.2.1 ∉ bad := by
  unfold fb_collect at h
  rcases List.mem_filterMap.mp h with ⟨t, _, ht⟩
  cases hw : mon_word_to_num t.word with
  | none => rw [hw] at ht; exact absurd ht (by simp)
  | some mmv =>
    rw [hw] at ht
    dsimp only at ht
    by_cases h0 : mmv = 0
    · rw [if_pos h0] at ht; exact absurd ht (by simp)
    · rw [if_neg h0] at ht
      by_cases hb : truthy pm ∧ mmv ∈ bad
      · rw [if_pos hb] at ht; exact absurd ht (by simp)
      · rw [if_neg hb] at ht
        simp only [Option.some.injEq] at ht
        rw [← ht]
        intro hmem
        exact hb ⟨hpm, hmem⟩

theorem fb_heading_result_not_bad {bad : Finset Nat} {pm : Option Nat}
    {fb : FbHeading} {m : Nat} (hpm : truthy pm = true)
    (h : fb_heading_result pm bad fb = some m) : m ∉ bad := by
  unfold fb_heading_result at h
  by_cases hg : fb.assets_gate
  · rw [hg] at h
    simp only [Bool.not_true, Bool.false_eq_true, if_false] at h
    set c1 := fb_collect bad pm 0 fb.month_day_toks with hc1
    set cands := if c1.isEmpty then fb_collect bad pm 1 fb.month_only_toks else c1 with hcands
    by_cases he : cands.isEmpty
    · rw [if_pos he] at h; exact absurd h (by simp)
    · rw [if_neg he] at h
      simp only [Option.map_eq_some'] at h
      rcases h with ⟨x, hx, hxm⟩
      rcases List.mem_map.mp (mem_of_min_by_key _ _ _ hx) with ⟨y, hy, hyx⟩
      have hmonth : y.1 ∈ cands.map (fun c => c.2.1) := by
        rcases foldl_upd_best_month_mem cands [] y hy with h2 | h2
        · simp at h2
        · exact h2
      rcases List.mem_map.mp hmonth with ⟨c, hc, hcy⟩
      have hcb : c.2.1 ∉ bad := by
        rw [hcands] at hc
        by_cases hemp : c1.isEmpty
        · rw [if_pos hemp] at hc; exact fb_collect_not_bad hpm hc
        · rw [if_neg hemp] at hc; exact fb_collect_not_bad hpm hc
      rw [← hxm, ← hyx, ← hcy]
      exact hcb
  · rw [Bool.not_eq_true] at hg
    rw [hg] at h
    exact absurd h (by simp)

theorem fallback_month_only_not_bad {bad : Finset Nat} {pm : Option Nat}
    {fbs : List FbHeading} {m : Nat} (hpm : truthy pm = true)
    (h : fallback_month_only pm bad fbs = some m) : m ∉ bad := by
  induction fbs with
  | nil => simp [fallback_month_only] at h
  | cons fb rest ih =>
    unfold fallback_month_only at h
    cases hr : fb_heading_result pm bad fb with
    | some m0 =>
      rw [hr] at h
      simp only [Option.some.injEq] at h
      rw [← h]; exact fb_heading_result_not_bad hpm hr
    | none => rw [hr] at h; exact ih h

theorem asof_pick_not_bad {bad : Finset Nat} {pm : Option Nat} {fy : Bool}
    {l : List (Nat × SDate)} {m : Nat} (hl : ∀ x ∈ l, x.1 ∉ bad)
    (h : asof_pick pm fy l = some m) : m ∉ bad := by
  match l with
  | [] => simp [asof_pick] at h
  | [(mx, dtx)] =>
    simp only [asof_pick, Option.some.injEq] at h
    rw [← h]
    exact hl (mx, dtx) (List.mem_cons_self _ _)
  | [(mx, dtx), (my, dty)] =>
    simp only [asof_pick] at h
    split at h <;> simp only [Option.some.injEq] at h <;> rw [← h]
    · exact hl (my, dty) (List.mem_cons_of_mem _ (List.mem_cons_self _ _))
    · exact hl (mx, dtx) (List.mem_cons_self _ _)
  | x :: y :: z :: t => simp [asof_pick] at h

theorem asof_branch_not_bad {bad : Finset Nat} {pm : Option Nat} {fy : Bool}
    {o : Option AsofMatch} {m : Nat} (h : asof_branch pm bad fy o = some m) :
    m ∉ bad := by
  cases o with
  | none => simp [asof_branch] at h
  | some a =>
    simp only [asof_branch] at h
    exact asof_pick_not_bad (fun x hx => asof_survivors_not_bad hx) h

theorem generic_scan_not_bad {bad : Finset Nat} {pm : Option Nat}
    {hb : HeadingBlock} {m : Nat} (hpm : truthy pm = true)
    (h : generic_scan pm bad hb = some m) : m ∉ bad := by
  unfold generic_scan at h
  simp only [Option.map_eq_some'] at h
  rcases h with ⟨x, hx, hxm⟩
  rcases List.mem_filterMap.mp (mem_of_min_by_key _ _ _ hx) with ⟨c, _, hc⟩
  cases hm : c.mm with
  | none => rw [hm] at hc; exact absurd hc (by simp)
  | some mmv =>
    rw [hm] at hc
    dsimp only at hc
    by_cases h0 : mmv = 0
    · rw [if_pos h0] at hc; exact absurd hc (by simp)
    · rw [if_neg h0] at hc
      by_cases hbb : truthy pm ∧ mmv ∈ bad
      · rw [if_pos hbb] at hc; exact absurd hc (by simp)
      · rw [if_neg hbb] at hc
        simp only [Option.some.injEq] at hc
        rw [← hxm, ← hc]
        intro hmem
        exact hbb ⟨hpm, hmem⟩

theorem heading_result_not_bad {bad : Finset Nat} {pm : Option Nat}
    {hb : HeadingBlock} {m : Nat} (hpm : truthy pm = true)
    (h : heading_result pm bad hb = some m) : m ∉ bad := by
  unfold heading_result at h
  by_cases hg : hb.assets_gate
  · rw [hg] at h
    simp only [Bool.not_true, Bool.false_eq_true, if_false] at h
    cases hr : asof_branch pm bad hb.block_fy hb.asof with
    | some m0 =>
      rw [hr] at h
      simp only [or_else, Option.some.injEq] at h
      rw [← h]
      exact asof_branch_not_bad hr
    | none =>
      rw [hr] at h
      simp only [or_else] at h
      exact generic_scan_not_bad hpm h
  · rw [Bool.not_eq_true] at hg
    rw [hg] at h
    exact absurd h (by simp)

theorem window_go_not_bad {bad : Finset Nat} {pm : Option Nat}
    {fbs : List FbHeading} {hs : List HeadingBlock} {m : Nat} (hpm : truthy pm = true)
    (h : window_go fbs pm bad hs = some m) : m ∉ bad := by
  induction hs with
  | nil => exact fallback_month_only_not_bad hpm h
  | cons hb rest ih =>
    unfold window_go at h
    cases hr : heading_result pm bad hb with
    | some m0 =>
      rw [hr] at h
      simp only [Option.some.injEq] at h
      rw [← h]; exact heading_result_not_bad hpm hr
    | none => rw [hr] at h; exact ih h

theorem month_in_near_set_false_iff {m p : Nat} (hp : p ≠ 0) :
    month_in_near_set m (some p) = false ↔ m ∉ near_months_set (some p) := by
  unfold month_in_near_set
  have ht : truthy (some p) = true := by simp [truthy]; omega
  rw [ht]
  simp

theorem choose_fye_month_spec_witness :
    choose_fye_month (some ⟨2010, 12, 31⟩) (some 12) (some 3) = some 3 ∧
    choose_fye_month (some ⟨2010, 12, 31⟩) (some 11) (some 3) = some 11 := by
  exact ⟨(choose_fye_month_spec ⟨2010, 12, 31⟩ 12 (some 3)).1 rfl,
    (choose_fye_month_spec ⟨2010, 12, 31⟩ 11 (some 3)).2.1 (by decide)⟩

/-! ### Whitespace-normalization lemmas -/

/-- No two adjacent whitespace characters. -/
def no_two_ws (l : List Char) : Prop :=
  List.Chain' (fun a b => ¬ (is_py_space a = true ∧ is_py_space b = true)) l

theorem nh_dropWhile (l : List Char) :
    ∀ c, (l.dropWhile is_py_space).head? = some c → is_py_space c = false := by
  induction l with
  | nil => intro c h; simp at h
  | cons a rest ih =>
    intro c h
    rw [List.dropWhile_cons] at h
    by_cases ha : is_py_space a = true
    · rw [if_pos ha] at h; exact ih c h
    · rw [if_neg ha] at h
      simp only [List.head?_cons, Option.some.injEq] at h
      rw [← h]
      simpa using ha

theorem nh_collapse_true (l : List Char) :
    ∀ c, (collapse_ws_go true l).head? = some c → is_py_space c = false := by
  induction l with
  | nil => intro c h; simp [collapse_ws_go] at h
  | cons a rest ih =>
    intro c h
    unfold collapse_ws_go at h
    by_cases ha : is_py_space a = true
    · rw [if_pos ha, if_pos rfl] at h; exact ih c h
    · rw [if_neg ha] at h
      simp only [List.head?_cons, Option.some.injEq] at h
      rw [← h]
      simpa using ha

theorem p1_collapse (flag : Bool) (l : List Char) :
    ∀ c ∈ collapse_ws_go flag l, is_py_space c = true → c = ' ' := by
  induction l generalizing flag with
  | nil => intro c hc _; simp [collapse_ws_go] at hc
  | cons a rest ih =>
    intro c hc hsp
    unfold collapse_ws_go at hc
    by_cases ha : is_py_space a = true
    · rw [if_pos ha] at hc
      cases flag with
      | true => rw [if_pos rfl] at hc; exact ih true c hc hsp
      | false =>
        rw [if_neg (by simp)] at hc
        rcases List.mem_cons.mp hc with h1 | h1
        · exact h1
        · exact ih true c h1 hsp
    · rw [if_neg ha] at hc
      rcases List.mem_cons.mp hc with h1 | h1
      · exact absurd (h1 ▸ hsp) ha
      · exact ih false c h1 hsp

theorem chain_collapse (flag : Bool) (l : List Char) : no_two_ws (collapse_ws_go flag l) := by
  induction l generalizing flag with
  | nil => simp [collapse_ws_go, no_two_ws]
  | cons a rest ih =>
    unfold collapse_ws_go
    by_cases ha : is_py_space a = true
    · rw [if_pos ha]
      cases flag with
      | true => rw [if_pos rfl]; exact ih true
      | false =>
        rw [if_neg (by simp)]
        unfold no_two_ws
        rw [List.chain'_cons']
        constructor
        · intro y hy hcon
          have hns := nh_collapse_true rest y (Option.mem_def.mp hy)
          rw [hns] at hcon
          exact absurd hcon.2 (by simp)
        · exact ih true
    · rw [if_neg ha]
      unfold no_two_ws
      rw [List.chain'_cons']
      refine ⟨?_, ih false⟩
      intro y _ hcon
      exact ha hcon.1

theorem mem_strip_subset {l : List Char} {c : Char} (h : c ∈ py_strip_chars l) : c ∈ l := by
  unfold py_strip_chars at h
  rw [List.mem_reverse] at h
  have h2 := (List.dropWhile_sublist _).subset h
  rw [List.mem_reverse] at h2
  exact (List.dropWhile_sublist _).subset h2

theorem chain_dropWhile (p : Char → Bool) (l : List Char) (h : no_two_ws l) :
    no_two_ws (l.dropWhile p) := by
  induction l with
  | nil => simpa using h
  | cons a rest ih =>
    rw [List.dropWhile_cons]
    by_cases hp : p a = true
    · rw [if_pos hp]; exact ih h.tail
    · rw [if_neg hp]; exact h

theorem chain_reverse_ws (l : List Char) (h : no_two_ws l) : no_two_ws l.reverse := by
  unfold no_two_ws at h ⊢
  rw [List.chain'_reverse]
  exact h.imp (fun _ _ hab hcon => hab ⟨hcon.2, hcon.1⟩)

theorem chain_strip (l : List Char) (h : no_two_ws l) : no_two_ws (py_strip_chars l) := by
  unfold py_strip_chars
  exact chain_reverse_ws _ (chain_dropWhile _ _ (chain_reverse_ws _ (chain_dropWhile _ _ h)))

theorem nl_strip (l : List Char) :
    ∀ c, (py_strip_chars l).getLast? = some c → is_py_space c = false := by
  intro c h
  unfold py_strip_chars at h
  rw [List.getLast?_reverse] at h
  exact nh_dropWhile _ c h

theorem nh_strip (l : List Char) :
    ∀ c, (py_strip_chars l).head? = some c → is_py_space c = false := by
  intro c h
  unfold py_strip_chars at h
  rw [List.head?_reverse] at h
  set A := l.dropWhile is_py_space with hA
  set C := A.reverse.dropWhile is_py_space with hC
  obtain ⟨pre, hpre⟩ := List.dropWhile_suffix (l := A.reverse) is_py_space
  have hCne : C ≠ [] := by
    intro hnil
    rw [hnil] at h
    simp at h
  have hlast : A.reverse.getLast? = C.getLast? := by
    conv_lhs => rw [← hpre]
    exact List.getLast?_append_of_ne_nil _ hCne
  rw [← hlast, List.getLast?_reverse] at h
  rw [hA] at h
  exact nh_dropWhile l c h

theorem collapse_ws_go_cons (flag : Bool) (c : Char) (rest : List Char) :
    collapse_ws_go flag (c :: rest) =
      if is_py_space c then
        (if flag then collapse_ws_go true rest else ' ' :: collapse_ws_go true rest)
      else c :: collapse_ws_go false rest := by
  simp only [collapse_ws_go]

theorem collapse_fixed_aux : ∀ (n : Nat) (l : List Char), l.length ≤ n →
    (∀ c ∈ l, is_py_space c = true → c = ' ') → no_two_ws l →
    (∀ c, l.head? = some c → is_py_space c = false) →
    collapse_ws_go true l = l ∧ collapse_ws_go false l = l := by
  intro n
  induction n with
  | zero =>
    intro l hl _ _ _
    have hnil : l = [] := List.length_eq_zero.mp (Nat.le_zero.mp hl)
    rw [hnil]
    exact ⟨rfl, rfl⟩
  | succ k ih =>
    intro l hl hp1 hch hnh
    match l with
    | [] => exact ⟨rfl, rfl⟩
    | a :: rest =>
      have ha : is_py_space a = false := hnh a rfl
      have hgo : ∀ flag, collapse_ws_go flag (a :: rest) = a :: collapse_ws_go false rest := by
        intro flag
        rw [collapse_ws_go_cons, if_neg (by simp [ha])]
      have hrest : collapse_ws_go false rest = rest := by
        match rest with
        | [] => rfl
        | d :: r2 =>
          by_cases hd : is_py_space d = true
          · have hd2 : d = ' ' := hp1 d (by simp) hd
            have h1 : collapse_ws_go false (d :: r2) = ' ' :: collapse_ws_go true r2 := by
              rw [collapse_ws_go_cons, if_pos hd, if_neg (by simp)]
            have hnh2 : ∀ c, r2.head? = some c → is_py_space c = false := by
              intro c hc
              have hch2 : no_two_ws (d :: r2) := hch.tail
              have hrel := (List.chain'_cons'.mp hch2).1 c (Option.mem_def.mpr hc)
              by_contra hcc
              rw [Bool.not_eq_false] at hcc
              exact hrel ⟨hd, hcc⟩
            have hres := ih r2 (by simp at hl ⊢; omega)
              (fun c hc hsp => hp1 c (by simp [hc]) hsp) hch.tail.tail hnh2
            rw [h1, hres.1, hd2]
          · have hres := ih (d :: r2) (by simp at hl ⊢; omega)
              (fun c hc hsp => hp1 c (List.mem_cons_of_mem a hc) hsp)
              hch.tail
              (fun c hc => by
                simp only [List.head?_cons, Option.some.injEq] at hc
                rw [← hc]
                simpa using hd)
            exact hres.2
      exact ⟨by rw [hgo true, hrest], by rw [hgo false, hrest]⟩

theorem strip_fixed (l : List Char)
    (hnh : ∀ c, l.head? = some c → is_py_space c = false)
    (hnl : ∀ c, l.getLast? = some c → is_py_space c = false) :
    py_strip_chars l = l := by
  have h1 : l.dropWhile is_py_space = l := by
    match l with
    | [] => rfl
    | a :: rest => rw [List.dropWhile_cons, if_neg (by simp [hnh a rfl])]
  unfold py_strip_chars
  rw [h1]
  have h2 : l.reverse.dropWhile is_py_space = l.reverse := by
    cases hr : l.reverse with
    | nil => rfl
    | cons a rest =>
      have hla : l.getLast? = some a := by
        rw [← List.head?_reverse, hr]
        rfl
      rw [List.dropWhile_cons, if_neg (by simp [hnl a hla])]
  rw [h2, List.reverse_reverse]

theorem ws_core_idem (x : List Char) :
    py_strip_chars (collapse_ws_go false (py_strip_chars (collapse_ws_go false x))) =
      py_strip_chars (collapse_ws_go false x) := by
  have hp1z : ∀ c ∈ py_strip_chars (collapse_ws_go false x), is_py_space c = true → c = ' ' :=
    fun c hc hsp => p1_collapse false x c (mem_strip_subset hc) hsp
  have hchz : no_two_ws (py_strip_chars (collapse_ws_go false x)) :=
    chain_strip _ (chain_collapse false x)
  have hcol := (collapse_fixed_aux (py_strip_chars (collapse_ws_go false x)).length
    (py_strip_chars (collapse_ws_go false x)) le_rfl hp1z hchz
    (nh_strip (collapse_ws_go false x))).2
  rw [hcol]
  exact strip_fixed _ (nh_strip _) (nl_strip _)

/-- C1 (amended): with a known period month, no month in its near set is
ever returned by the four text-heuristic tiers — the as-of probe, the
heading-window scan, the month-only fallback and the free-text fallback;
the inline-tag fast path performs no near-set filtering. -/
theorem near_set_exclusion_text_tiers (p : Nat) (hp : 1 ≤ p) :
    (∀ (ms : List AsofMatch) (m : Nat),
      probe_fye_from_balance_asof ms (some p) = some m →
        m ∉ near_months_set (some p)) ∧
    (∀ (doc : DocWindows) (m : Nat),
      probe_fye_from_balance_window doc (some p) = some m →
        m ∉ near_months_set (some p)) ∧
    (∀ (fbs : List FbHeading) (m : Nat),
      fallback_month_only (some p) (near_months_set (some p)) fbs = some m →
        m ∉ near_months_set (some p)) ∧
    (∀ (ws : List String) (m : Nat),
      probe_fye_from_text ws (some p) = some m →
        m ∉ near_months_set (some p)) := by
  have hpm : truthy (some p) = true := by simp [truthy]; omega
  refine ⟨?_, ?_, ?_, ?_⟩
  · intro ms m h
    exact asof_go_not_bad h
  · intro doc m h
    exact window_go_not_bad hpm h
  · intro fbs m h
    exact fallback_month_only_not_bad hpm h
  · intro ws m h
    induction ws with
    | nil => simp [probe_fye_from_text] at h
    | cons w rest ih =>
      unfold probe_fye_from_text at h
      cases hw : mon_word_to_num w with
      | none => rw [hw] at h; exact ih h
      | some month =>
        rw [hw] at h
        dsimp only at h
        by_cases h0 : month = 0
        · rw [if_pos h0] at h; exact ih h
        · rw [if_neg h0] at h
          by_cases hcond : (some p : Option Nat) = none ∨
              month_in_near_set month (some p) = false
          · rw [if_pos hcond] at h
            simp only [Option.some.injEq] at h
            rcases hcond with hc | hc
            · exact absurd hc (by simp)
            · rw [← h]
              exact (month_in_near_set_false_iff (by omega)).mp hc
          · rw [if_neg hcond] at h; exact ih h

theorem near_set_exclusion_text_tiers_witness :
    (1 : Nat) ≤ 12 ∧ 3 ∉ near_months_set (some 12) :=
  ⟨by decide,
    (near_set_exclusion_text_tiers 12 (by decide)).1
      [⟨none, some ⟨2010, 3, 31⟩⟩] 3 (by decide)⟩

/-- C1 counterexample: the inline-tag fast path of `step3_html_parse`
applies no near-set filtering — with period month 12, the DEI value
`12/31` resolves to FYE month 12, which lies in `NearSet(12)`, and the
resolution chain returns it. -/
theorem near_set_exclusion_fast_path_cex :
    month_in_near_set 12 (some 12) = true ∧
    step3_fye_month (extract_dei_fye_month (some ("12/31"))) []
      ⟨[], []⟩ [] (some 12) = some 12 := by
  exact ⟨by decide, by decide⟩

/-- C4: in the heading-anchored as-of tier, a heading that fails the
nearby-Assets gate is skipped with no effect; with the gate passed and an
as-of match in the truncated window, a single surviving month is returned
and, of two survivors, the strictly higher-scoring month is returned. -/
theorem asof_tier_spec (pm : Option Nat) :
    (∀ (h : HeadingBlock) (hs : List HeadingBlock) (fbs : List FbHeading),
      h.assets_gate = false →
      probe_fye_from_balance_window ⟨h :: hs, fbs⟩ pm =
        probe_fye_from_balance_window ⟨hs, fbs⟩ pm) ∧
    (∀ (h : HeadingBlock) (hs : List HeadingBlock) (fbs : List FbHeading)
        (a : AsofMatch) (m : Nat) (dt : SDate),
      h.assets_gate = true → h.asof = some a →
      asof_survivors (near_months_set pm) a = [(m, dt)] →
      probe_fye_from_balance_window ⟨h :: hs, fbs⟩ pm = some m) ∧
    (∀ (h : HeadingBlock) (hs : List HeadingBlock) (fbs : List FbHeading)
        (a : AsofMatch) (m1 m2 : Nat) (dt1 dt2 : SDate),
      h.assets_gate = true → h.asof = some a →
      asof_survivors (near_months_set pm) a = [(m1, dt1), (m2, dt2)] →
      (score_candidate (some dt1) m1 pm h.block_fy >
          score_candidate (some dt2) m2 pm h.block_fy →
        probe_fye_from_balance_window ⟨h :: hs, fbs⟩ pm = some m1) ∧
      (score_candidate (some dt2) m2 pm h.block_fy >
          score_candidate (some dt1) m1 pm h.block_fy →
        probe_fye_from_balance_window ⟨h :: hs, fbs⟩ pm = some m2)) := by
  refine ⟨?_, ?_, ?_⟩
  · intro h hs fbs hg
    show window_go fbs pm (near_months_set pm) (h :: hs) = _
    unfold window_go
    have hnone : heading_result pm (near_months_set pm) h = none := by
      unfold heading_result
      rw [hg]
      rfl
    rw [hnone]
    rfl
  · intro h hs fbs a m dt hg ha hsurv
    show window_go fbs pm (near_months_set pm) (h :: hs) = _
    unfold window_go
    have hsome : heading_result pm (near_months_set pm) h = some m := by
      unfold heading_result
      rw [hg, ha]
      simp only [Bool.not_true, Bool.false_eq_true, if_false, asof_branch]
      rw [hsurv]
      rfl
    rw [hsome]
  · intro h hs fbs a m1 m2 dt1 dt2 hg ha hsurv
    constructor
    · intro hscore
      show window_go fbs pm (near_months_set pm) (h :: hs) = _
      unfold window_go
      have hsome : heading_result pm (near_months_set pm) h = some m1 := by
        unfold heading_result
        rw [hg, ha]
        simp only [Bool.not_true, Bool.false_eq_true, if_false, asof_branch]
        rw [hsurv]
        simp only [asof_pick]
        rw [if_neg (by omega)]
        rfl
      rw [hsome]
    · intro hscore
      show window_go fbs pm (near_months_set pm) (h :: hs) = _
      unfold window_go
      have hsome : heading_result pm (near_months_set pm) h = some m2 := by
        unfold heading_result
        rw [hg, ha]
        simp only [Bool.not_true, Bool.false_eq_true, if_false, asof_branch]
        rw [hsurv]
        simp only [asof_pick]
        rw [if_pos (by omega)]
        rfl
      rw [hsome]

theorem asof_tier_spec_witness :
    probe_fye_from_balance_window
      ⟨[⟨false, some ⟨some ⟨2010, 7, 3⟩, some ⟨2010, 1, 2⟩⟩, [], [], false⟩], []⟩
      (some 7) = none ∧
    probe_fye_from_balance_window
      ⟨[⟨true, some ⟨some ⟨2010, 7, 3⟩, some ⟨2010, 1, 2⟩⟩, [], [], false⟩], []⟩
      (some 7) = some 1 := by
  constructor
  · have h := (asof_tier_spec (some 7)).1
      ⟨false, some ⟨some ⟨2010, 7, 3⟩, some ⟨2010, 1, 2⟩⟩, [], [], false⟩ [] [] rfl
    rw [h]
    decide
  · exact (asof_tier_spec (some 7)).2.1
      ⟨true, some ⟨some ⟨2010, 7, 3⟩, some ⟨2010, 1, 2⟩⟩, [], [], false⟩ [] []
      ⟨some ⟨2010, 7, 3⟩, some ⟨2010, 1, 2⟩⟩ 1 ⟨2010, 1, 2⟩ rfl rfl (by decide)

/-- C5: when the inline-tag fast path resolves a FYE month, it is returned
as-is and the text-heuristic tiers are never consulted — even when the
as-of tier would have resolved a different month. -/
theorem inline_tag_precedence (fye_raw : String) (m1 m2 : Nat)
    (ms : List AsofMatch) (doc : DocWindows) (ws : List String) (pm : Option Nat)
    (hdei : extract_dei_fye_month (some fye_raw) = some m1)
    (hasof : probe_fye_from_balance_asof ms pm = some m2)
    (hne : m1 ≠ m2) :
    step3_fye_month (extract_dei_fye_month (some fye_raw)) ms doc ws pm = some m1 := by
  have hdei2 : keep_truthy_month (parse_mm_from_fye_text fye_raw) = some m1 := hdei
  have hm1 : m1 ≠ 0 := by
    cases hparse : parse_mm_from_fye_text fye_raw with
    | none => rw [hparse] at hdei2; exact absurd hdei2 (by simp [keep_truthy_month])
    | some mm =>
      rw [hparse] at hdei2
      simp only [keep_truthy_month] at hdei2
      by_cases h0 : mm = 0
      · rw [if_pos h0] at hdei2; exact absurd hdei2 (by simp)
      · rw [if_neg h0] at hdei2
        simp only [Option.some.injEq] at hdei2
        rw [← hdei2]; exact h0
  unfold step3_fye_month
  rw [hdei]
  have ht : truthy (some m1) = true := by simp [truthy]; omega
  rw [ht]
  rfl

theorem inline_tag_precedence_witness :
    step3_fye_month (extract_dei_fye_month (some ("12/31")))
      [⟨none, some ⟨2010, 3, 31⟩⟩] ⟨[], []⟩ [] none = some 12 := by
  exact inline_tag_precedence ("12/31") 12 3 [⟨none, some ⟨2010, 3, 31⟩⟩]
    ⟨[], []⟩ [] none (by decide) (by decide) (by decide)

/-- C6: the dashed-form month parser has no 1..12 range check — on the
token `--13-31` it returns 13, the scanner emits a candidate with month
13, and the balance-window probe returns 13 as the FYE month, outside
1..12. -/
theorem month_range_violation :
    mm_from_dash_md ("--13-31") = some 13 ∧
    (extract_dates_from_block [] [⟨"--13-31", 0, 7, false⟩] 16).map (fun c => c.mm) =
      [some 13] ∧
    probe_fye_from_balance_window
      ⟨[⟨true, none, [], [⟨"--13-31", 0, 7, false⟩], false⟩], []⟩ (some 3) = some 13 ∧
    ¬ (13 ≤ 12) := by
  exact ⟨by decide, by decide, by decide, by decide⟩

/-- C7 counterexample: the token `February 30, 2010` matches the
month-word date grammar but fails full date parsing, and the scanner
contributes no candidate for it at all — not a month-only candidate. -/
theorem word_token_dropped_cex :
    pd_to_datetime ("February 30, 2010") = none ∧
    extract_dates_from_block [] [⟨"February 30, 2010", 0, 17, false⟩] 16 = [] := by
  exact ⟨by decide, by decide⟩

/-- C7 (amended): the scanner is a total function; a token matching the
dashed month-day grammar — which never carries a parseable full date —
always contributes a month-only candidate with a null parsed date, while
a month-word token that fails full date parsing is discarded. -/
theorem dashed_token_month_only (raw : String) (s e : Nat) (fy : Bool) (mmv : Nat)
    (h : mm_from_dash_md raw = some mmv) :
    extract_dates_from_block [] [⟨raw, s, e, fy⟩] 16 =
      [⟨py_strip raw, none, some mmv, s, e, fy⟩] := by
  have hfm : fullmatch_dash_md (py_strip raw).data = some mmv := h
  unfold extract_dates_from_block extract_split_dates extract_split_dates_go
  unfold extract_dates_go
  simp only [List.map_nil, List.any_nil, Bool.false_eq_true, if_false]
  rw [hfm]
  simp [extract_dates_go]

theorem dashed_token_month_only_witness :
    mm_from_dash_md ("--12-31") = some 12 ∧
    extract_dates_from_block [] [⟨"--12-31", 0, 7, false⟩] 16 =
      [⟨py_strip ("--12-31"), none, some 12, 0, 7, false⟩] :=
  ⟨by decide, dashed_token_month_only ("--12-31") 0 7 false 12 (by decide)⟩

/-- C8 counterexample: the text normalizer is not idempotent — entity
decoding is single-pass, so `&amp;lt;b&amp;gt;` normalizes to
`&lt;b&gt;`, and re-normalizing that decodes the now-exposed entities and
strips the tag they form, yielding the empty string. -/
theorem html_to_text_not_idempotent :
    html_to_text (html_to_text ("&amp;lt;b&amp;gt;")) ≠
      html_to_text ("&amp;lt;b&amp;gt;") ∧
    html_to_text ("&amp;lt;b&amp;gt;") = "&lt;b&gt;" ∧
    html_to_text (html_to_text ("&amp;lt;b&amp;gt;")) = "" := by
  exact ⟨by decide, by decide, by decide⟩

/-- C8 (amended): the normalizer is not idempotent in general, because
entity decoding is single-pass; its final whitespace-collapse-and-trim
stage is idempotent, and every `html_to_text` output is a fixed point of
that stage. -/
theorem ws_normalize_idempotent :
    (∀ s : String, ws_normalize (ws_normalize s) = ws_normalize s) ∧
    (∀ s : String, ws_normalize (html_to_text s) = html_to_text s) := by
  have hmain : ∀ s : String, ws_normalize (ws_normalize s) = ws_normalize s := by
    intro s
    show (⟨py_strip_chars (collapse_ws_go false
        (py_strip_chars (collapse_ws_go false s.data)))⟩ : String) =
      ⟨py_strip_chars (collapse_ws_go false s.data)⟩
    exact congrArg String.mk (ws_core_idem s.data)
  refine ⟨hmain, ?_⟩
  intro s
  have hrepr : ∃ t : String, html_to_text s = ws_normalize t := ⟨_, rfl⟩
  obtain ⟨t, ht⟩ := hrepr
  rw [ht]
  exact hmain t

end BusFact
